import Mathlib

/-!
Verification development for the LinkedIn outreach pipelines
(pipe_1_final_jan17.py, pipe_2_final_jan17.py, pipe_3_final_jan20.py).

The Python sources are shallowly embedded: pure logic becomes Lean
functions, the stateful campaign loops become explicit state passing,
and the external network world (profile lookups, connection requests,
message sends, random draws) is passed in as explicit oracle
parameters.  Machine integers play no role; delays are modelled as
rationals since the Python code draws real-valued jitter.
-/

namespace Pipelines

/-! ## Contact Extractor (pipe_3_final_jan20.py, extract_contact_details)

The Python function runs two regexes over the message text:
  phone_pattern = (?:(?:\+91|0)?[6789]\d\x7b9\x7d)
  email_pattern = [a-zA-Z0-9._%+-]+@[a-zA-Z0-9.-]+\.[a-zA-Z]\x7b2,\x7d
with re.findall (leftmost, non-overlapping, backtracking) and then
strips a leading +91 or 0 from every phone match.  The matchers below
embed exactly these patterns with Python's backtracking order:
alternation tries +91 before 0 before the empty prefix, and the greedy
pluses give back characters from the right. -/

/-- Character class [6789], the first digit of an Indian mobile number. -/
def isMobileStart (c : Char) : Bool :=
  c = '6' || c = '7' || c = '8' || c = '9'

/-- Match exactly n digit characters (the d-quantifier of the phone
pattern), returning the matched digits and the remaining input. -/
def takeDigits : Nat → List Char → Option (List Char × List Char)
  | 0, l => some ([], l)
  | _ + 1, [] => none
  | n + 1, c :: l =>
    if c.isDigit then
      match takeDigits n l with
      | some (ds, r) => some (c :: ds, r)
      | none => none
    else none

/-- Match the body [6789] followed by nine digits. -/
def matchMobileBody (l : List Char) : Option (List Char × List Char) :=
  match l with
  | [] => none
  | c :: rest =>
    if isMobileStart c then
      match takeDigits 9 rest with
      | some (ds, r) => some (c :: ds, r)
      | none => none
    else none

/-- Match the full phone pattern at the current position.  The optional
prefix alternation is tried in Python's order: +91, then 0, then no
prefix at all. -/
def matchPhoneAt (l : List Char) : Option (List Char × List Char) :=
  match l with
  | c1 :: c2 :: c3 :: rest =>
    if c1 = '+' && c2 = '9' && c3 = '1' then
      match matchMobileBody rest with
      | some (m, r) => some (c1 :: c2 :: c3 :: m, r)
      | none => none
    else if c1 = '0' then
      match matchMobileBody (c2 :: c3 :: rest) with
      | some (m, r) => some (c1 :: m, r)
      | none => matchMobileBody l
    else matchMobileBody l
  | c1 :: rest =>
    if c1 = '0' then
      match matchMobileBody rest with
      | some (m, r) => some (c1 :: m, r)
      | none => matchMobileBody l
    else matchMobileBody l
  | [] => none

/-- Character class of the email local part, [a-zA-Z0-9._%+-]. -/
def isLocalChar (c : Char) : Bool :=
  c.isAlpha || c.isDigit || c = '.' || c = '_' || c = '%' || c = '+' || c = '-'

/-- Character class of the email domain, [a-zA-Z0-9.-]. -/
def isDomainChar (c : Char) : Bool :=
  c.isAlpha || c.isDigit || c = '.' || c = '-'

/-- Match a literal dot followed by at least two letters (the TLD part
of the email pattern, taken greedily). -/
def matchTld (l : List Char) : Option (List Char × List Char) :=
  match l with
  | '.' :: r =>
    let t := r.takeWhile Char.isAlpha
    if 2 ≤ t.length then some ('.' :: t, r.dropWhile Char.isAlpha) else none
  | _ => none

/-- Backtracking for the greedy domain plus: the reversed current domain
candidate is shrunk from the right until a dot-TLD tail matches. -/
def tryDomainAux : List Char → List Char → Option (List Char × List Char)
  | [], _ => none
  | c :: ds, rest =>
    match matchTld rest with
    | some (t, r) => some ((c :: ds).reverse ++ t, r)
    | none => tryDomainAux ds (c :: rest)

/-- Match the full email pattern at the current position. -/
def matchEmailAt (l : List Char) : Option (List Char × List Char) :=
  let loc := l.takeWhile isLocalChar
  if loc.isEmpty then none
  else
    match l.dropWhile isLocalChar with
    | '@' :: r2 =>
      (match tryDomainAux (r2.takeWhile isDomainChar).reverse (r2.dropWhile isDomainChar) with
       | some (de, r) => some (loc ++ '@' :: de, r)
       | none => none)
    | _ => none

/-- re.findall: scan left to right; on a match continue after it, on a
failure advance one character.  The fuel argument only bounds the
recursion; it is instantiated with more fuel than the scan can
consume, since every match removes at least one character. -/
def findAllAux (matchAt : List Char → Option (List Char × List Char)) :
    Nat → List Char → List (List Char)
  | 0, _ => []
  | _, [] => []
  | fuel + 1, c :: t =>
    match matchAt (c :: t) with
    | some (m, r) => m :: findAllAux matchAt fuel r
    | none => findAllAux matchAt fuel t

/-- All phone matches of the text. -/
def findPhones (l : List Char) : List (List Char) :=
  findAllAux matchPhoneAt (l.length + 1) l

/-- All email matches of the text. -/
def findEmails (l : List Char) : List (List Char) :=
  findAllAux matchEmailAt (l.length + 1) l

/-- Normalization step: re.sub applied to every match with the anchored
pattern stripping one leading +91 or 0. -/
def cleanPhone (l : List Char) : List Char :=
  match l with
  | c1 :: c2 :: c3 :: rest =>
    if c1 = '+' && c2 = '9' && c3 = '1' then rest
    else if c1 = '0' then c2 :: c3 :: rest
    else l
  | c1 :: rest => if c1 = '0' then rest else l
  | [] => []

/-- extract_contact_details: phone numbers (cleaned) and emails found in
the message text.  The Python function returns a dict with the two
lists, both present and possibly empty; here it is a pair. -/
def extract_contact_details (s : String) : List String × List String :=
  ((findPhones s.data).map (fun m => String.mk (cleanPhone m)),
   (findEmails s.data).map String.mk)

/-! ## Action Executor (pipe_1_final_jan17.py, send_connection_request)

One attempt consists of a read-only profile lookup followed, if the
profile was found, by the mutating add_connection call.  The external
world is an oracle mapping the attempt index to what each of the two
calls does on that attempt.  The linkedin_api convention is embedded as
in the source: add_connection returning False means success, any other
return means failure. -/

/-- Outcome of api_client.get_profile on one attempt: profile data
returned, a falsy result, or an exception with a message. -/
inductive LookupRes
  | found
  | notFound
  | raised (msg : String)
deriving DecidableEq

/-- Outcome of api_client.add_connection on one attempt: response False
(which the source treats as success), a truthy response, or an
exception with a message. -/
inductive ConnRes
  | sentOk
  | failFlag
  | raised (msg : String)
deriving DecidableEq

/-- What the external API does on a single attempt. -/
structure AttemptEnv where
  lookup : LookupRes
  conn : ConnRes

/-- Result of send_connection_request, together with the number of
attempts actually performed and the sleeps done by the retry policy
(time.sleep(retry_delay) at the top of every attempt after the first). -/
structure ExecOutcome where
  success : Bool
  message : String
  attemptsUsed : Nat
  retrySleeps : List Nat
deriving DecidableEq

/-- One pass of the for-attempt-in-range(max_retries) loop, starting at
the given attempt index with the given number of loop iterations left. -/
def send_connection_request_aux (env : Nat → AttemptEnv) (maxRetries retryDelay : Nat) :
    Nat → Nat → ExecOutcome
  | _, 0 => ⟨false, "Failed after " ++ toString maxRetries ++ " attempts", 0, []⟩
  | attempt, remaining + 1 =>
    let pre : List Nat := if 0 < attempt then [retryDelay] else []
    match (env attempt).lookup with
    | .raised msg =>
      if attempt = maxRetries - 1 then
        ⟨false, "Could not fetch profile data: " ++ msg, 1, pre⟩
      else
        let rest := send_connection_request_aux env maxRetries retryDelay (attempt + 1) remaining
        ⟨rest.success, rest.message, rest.attemptsUsed + 1, pre ++ rest.retrySleeps⟩
    | .notFound => ⟨false, "Profile not found or not accessible", 1, pre⟩
    | .found =>
      match (env attempt).conn with
      | .sentOk => ⟨true, "Connection request sent successfully", 1, pre⟩
      | .failFlag => ⟨false, "Failed to send connection request", 1, pre⟩
      | .raised msg =>
        if attempt = maxRetries - 1 then
          ⟨false, msg, 1, pre⟩
        else
          let rest := send_connection_request_aux env maxRetries retryDelay (attempt + 1) remaining
          ⟨rest.success, rest.message, rest.attemptsUsed + 1, pre ++ rest.retrySleeps⟩

/-- send_connection_request with its two keyword defaults passed
explicitly (the campaign controller calls it with max_retries=3,
retry_delay=5). -/
def send_connection_request (env : Nat → AttemptEnv) (maxRetries retryDelay : Nat) :
    ExecOutcome :=
  send_connection_request_aux env maxRetries retryDelay 0 maxRetries

/-! ## Outreach Campaign Controller (pipe_1_final_jan17.py, scrape_and_connect)

The controller iterates over the selected companies' scraped batches.
Scraping, shuffling and company selection are external; a run is given
the per-company batches in the order and shuffle the externals
produced.  The dedup ledger previous_profile_ids is loaded once before
the loop and never modified during the run, exactly as in the source.
Sleeps between companies (random.randint(60,180)) are outside every
claim and not tracked; the inter-target uniform(45,90) sleeps are
tracked in interTargetDelays, with the random draw supplied as an
oracle indexed by the success counter at draw time. -/

/-- A scraped profile row, with the fields the controller reads.
Optional fields model dict.get returning None for absent keys. -/
structure Target where
  profile_id : Option String
  profile_link : String
  name : Option String
  current_company : Option String

/-- The id used for dedup and for the connect call:
profile_to_connect.get('profile_id') or the last segment of
profile_to_connect.get('profile_link',''). -/
def resolvePid (t : Target) : String :=
  let p := t.profile_id.getD ""
  if p = "" then (t.profile_link.splitOn "/").getLastD "" else p

/-- One row appended to connection_attempts (the timestamp column is an
external clock reading and is not modelled). -/
structure AttemptRecord where
  profile_id : String
  full_name : String
  company : String
  success : Bool
  message : String
deriving DecidableEq

/-- Mutable campaign state: the success counter, the in-memory attempt
list, and the inter-target delays slept so far. -/
structure CampaignState where
  successes : Nat
  records : List AttemptRecord
  interTargetDelays : List ℚ

/-- Everything the run reads but never writes: the executor oracle per
profile id, the dedup ledger, the uniform(45,90) draw oracle, and the
two campaign bounds (15 and 2 in the source). -/
structure CampaignConfig where
  envOf : String → Nat → AttemptEnv
  previous_profile_ids : List String
  interDelay : Nat → ℚ
  target_connections : Nat
  max_attempts_per_company : Nat

/-- Lines 280-304 of scrape_and_connect for one non-skipped target:
call the executor, append the outcome row, and on success bump the
success counter and sleep random.uniform(45, 90); on failure continue
with no inter-target sleep. -/
def attemptTarget (cfg : CampaignConfig) (profile_id : String) (t : Target)
    (st : CampaignState) : CampaignState :=
  let res := send_connection_request (cfg.envOf profile_id) 3 5
  let rec1 : AttemptRecord :=
    ⟨profile_id, t.name.getD "Unknown", t.current_company.getD "Unknown Company",
     res.success, res.message⟩
  let st1 : CampaignState := { st with records := st.records ++ [rec1] }
  if res.success then
    { st1 with
      successes := st1.successes + 1,
      interTargetDelays := st1.interTargetDelays ++ [cfg.interDelay st.successes] }
  else
    st1

/-- The inner for-profile_to_connect loop of scrape_and_connect: stop
when the campaign target or the per-company attempt cap is reached,
skip targets with a missing or Unknown id or an id already in the
ledger, otherwise count the attempt and run attemptTarget. -/
def companyLoop (cfg : CampaignConfig) :
    List Target → Nat → CampaignState → CampaignState
  | [], _, st => st
  | t :: rest, attempts_for_company, st =>
    if cfg.target_connections ≤ st.successes then st
    else if cfg.max_attempts_per_company ≤ attempts_for_company then st
    else
      let profile_id := resolvePid t
      if profile_id = "" || profile_id = "Unknown" then
        companyLoop cfg rest attempts_for_company st
      else if cfg.previous_profile_ids.contains profile_id then
        companyLoop cfg rest attempts_for_company st
      else
        companyLoop cfg rest (attempts_for_company + 1) (attemptTarget cfg profile_id t st)

/-- The outer for-company loop: break once the campaign-wide target is
reached, otherwise run the inner loop on the company's batch with a
fresh attempts_for_company counter. -/
def runCampaign (cfg : CampaignConfig) :
    List (List Target) → CampaignState → CampaignState
  | [], st => st
  | batch :: restCompanies, st =>
    if cfg.target_connections ≤ st.successes then st
    else runCampaign cfg restCompanies (companyLoop cfg batch 0 st)

/-- State at the start of scrape_and_connect. -/
def initialCampaignState : CampaignState := ⟨0, [], []⟩

/-- End-of-run update of output/previous_connection_attempts.csv: the
master list is rewritten as prior rows plus this run's rows, but only
when this run produced any rows. -/
def mergeAttempts (prior new : List AttemptRecord) : List AttemptRecord :=
  if new.isEmpty then prior else prior ++ new

/-! ## Message pipeline retry loop (pipe_2_final_jan17.py, main)

The message send sits in a while True loop: on an error return or an
exception retry_count is incremented and the loop sleeps
min(150, 30 * 2 ** (retry_count + 1) + uniform(0, 30)) before the next
attempt; only a successful send breaks out.  The oracle maps the
retry_count value at the top of an iteration to whether that send
succeeds; the jitter oracle is indexed the same way.  The fuel bounds
how many loop iterations are unrolled — the Python loop itself has no
bound — and the function returns the total number of attempts on
success within the fuel, plus the backoff delays slept so far. -/

def pipe2_send_loop (succeeds : Nat → Bool) (jit : Nat → ℚ) :
    Nat → Nat → Option Nat × List ℚ
  | _, 0 => (none, [])
  | retryCount, fuel + 1 =>
    if succeeds retryCount then (some (retryCount + 1), [])
    else
      let newCount := retryCount + 1
      let attempt := newCount + 1
      let delay := min 150 (30 * 2 ^ attempt + jit retryCount)
      let rest := pipe2_send_loop succeeds jit newCount fuel
      (rest.1, delay :: rest.2)

/-- The backoff formula of the message retry loop, as a function of the
code's attempt variable and of the uniform(0, 30) jitter draw. -/
def pipe2_backoff (attempt : Nat) (jit : ℚ) : ℚ :=
  min 150 (30 * 2 ^ attempt + jit)

/-- The delay pipe_2 sleeps before moving to the next connection:
min(120, 45 * 2 ** connection_index + uniform(0, 45)), executed only
after a successful send. -/
def pipe2_next_connection_delay (connection_index : Nat) (jit : ℚ) : ℚ :=
  min 120 (45 * 2 ^ connection_index + jit)

/-! ## Inbox Triage Controller (pipe_3_final_jan20.py, main)

Per-conversation processing: conversations with unread messages have
their full event list scanned for contact details, and if any message
matched, exactly one canned acknowledgement is sent; participant
records are extracted for every conversation.  The conversation and
participant trees arrive as nested dicts; the optional fields model
dict.get defaults. -/

/-- One extracted message row (extract_message_data output). -/
structure MessageRec where
  message_id : String
  created_at : String
  text : String
deriving DecidableEq

/-- One conversation event: either a MessageEvent with its extracted
row, or an event without message content, which is skipped. -/
inductive ConvEvent
  | message (m : MessageRec)
  | other

/-- extract_message_data: keep the events carrying a MessageEvent. -/
def extract_message_data (events : List ConvEvent) : List MessageRec :=
  events.filterMap (fun e =>
    match e with
    | .message m => some m
    | .other => none)

/-- The miniProfile dict of a messaging member. -/
structure MiniProfile where
  firstName : Option String
  lastName : Option String
  occupation : Option String
  publicIdentifier : Option String
  entityUrn : Option String

/-- The raw participant entry (the MessagingMember dict). -/
structure RawParticipant where
  entityUrn : Option String
  miniProfile : Option MiniProfile

/-- The flat participant record built by extract_participant_data. -/
structure ParticipantInfo where
  participant_id : String
  first_name : String
  last_name : String
  occupation : String
  public_id : String
  profile_urn : String
deriving DecidableEq

/-- extract_participant_data, with dict.get defaults as in the source. -/
def extract_participant_data (p : RawParticipant) : ParticipantInfo :=
  let profile := p.miniProfile.getD ⟨none, none, none, none, none⟩
  ⟨p.entityUrn.getD "", profile.firstName.getD "", profile.lastName.getD "",
   profile.occupation.getD "", profile.publicIdentifier.getD "", profile.entityUrn.getD ""⟩

/-- A conversation as the triage loop sees it, reduced to the fields
the loop reads. -/
structure Conversation where
  conversation_id : String
  unread_count : Nat
  events : List ConvEvent
  participants : List RawParticipant

/-- One row of contact_details_data. -/
structure ContactFact where
  conversation_id : String
  message_id : String
  timestamp : String
  phone_numbers : List String
  emails : List String
deriving DecidableEq

/-- The canned acknowledgement text of send_response_message. -/
def response_message : String :=
  "Thank you for showing an interest in us. A career counseling expert will be contacting you shortly!"

/-- Truthiness test the triage loop applies to one message:
contact_details has a phone number or an email. -/
def message_has_contact (t : String) : Bool :=
  !(extract_contact_details t).1.isEmpty || !(extract_contact_details t).2.isEmpty

/-- What one iteration of the conversation loop produces. -/
structure TriageResult where
  facts : List ContactFact
  acks : List String
  participants : List ParticipantInfo

/-- The body of the per-conversation loop of pipe_3 main: messages are
only processed when unread_count > 0; contact_found becomes true as
soon as one message matched, and then a single response message is
sent; participants are processed for every conversation. -/
def process_conversation (conv : Conversation) : TriageResult :=
  let msgPart : List ContactFact × List String :=
    if 0 < conv.unread_count then
      let msgs := extract_message_data conv.events
      let facts := msgs.filterMap (fun m =>
        if message_has_contact m.text then
          some ⟨conv.conversation_id, m.message_id, m.created_at,
                (extract_contact_details m.text).1, (extract_contact_details m.text).2⟩
        else none)
      (facts, if !facts.isEmpty then [response_message] else [])
    else ([], [])
  ⟨msgPart.1, msgPart.2, conv.participants.map extract_participant_data⟩

/-! ## Concrete scenario inputs used by the example-level statements -/

/-- Oracle: every lookup succeeds, every add_connection returns a
truthy response, which the source classifies as failure. -/
def envAllFlag : Nat → AttemptEnv := fun _ => ⟨.found, .failFlag⟩

/-- Oracle: the mutating call raises on attempts 0 and 1 and succeeds
on attempt 2. -/
def envFailTwiceThenOk : Nat → AttemptEnv := fun k =>
  if k < 2 then ⟨.found, .raised ("e" ++ toString k)⟩ else ⟨.found, .sentOk⟩

/-- Oracle: the mutating call raises on every attempt. -/
def envAllRaise : Nat → AttemptEnv := fun k => ⟨.found, .raised ("e" ++ toString k)⟩

/-- Oracle: every connect action succeeds at once. -/
def envAlwaysOk : String → Nat → AttemptEnv := fun _ _ => ⟨.found, .sentOk⟩

/-- A scraped profile that turns up in the batches of two different
companies of the same run. -/
def targetX : Target := ⟨some "x123", "", some "Alice", some "Acme"⟩

/-- Campaign configuration of the source (target 15, per-company cap 2)
with an empty ledger, an always-succeeding executor and a fixed draw. -/
def cfgTwoCompanies : CampaignConfig :=
  ⟨envAlwaysOk, [], fun _ => 50, 15, 2⟩

/-- A conversation with unread messages, one of which contains a phone
number. -/
def convUnreadExample : Conversation :=
  ⟨"urn:li:conv:1", 2,
   [.message ⟨"m1", "t0", "call 9876543210"⟩, .other],
   [⟨some "p1", none⟩]⟩

/-- A fully read conversation whose history nevertheless contains a
phone number. -/
def convReadExample : Conversation :=
  ⟨"urn:li:conv:2", 0,
   [.message ⟨"m2", "t1", "call 9876543210"⟩],
   [⟨some "p2", none⟩, ⟨none, none⟩]⟩

/-- The same campaign re-run after the first run's attempts were merged
into the master file. -/
def cfgSecondRun : CampaignConfig :=
  ⟨envAlwaysOk,
   (mergeAttempts []
     (runCampaign cfgTwoCompanies [[targetX], [targetX]] initialCampaignState).records).map
       (fun r => r.profile_id),
   fun _ => 50, 15, 2⟩

/-! ## Helper lemmas about the campaign loops -/

theorem attemptTarget_records (cfg : CampaignConfig) (pid : String) (t : Target)
    (st : CampaignState) :
    (attemptTarget cfg pid t st).records =
      st.records ++
        [⟨pid, t.name.getD "Unknown", t.current_company.getD "Unknown Company",
          (send_connection_request (cfg.envOf pid) 3 5).success,
          (send_connection_request (cfg.envOf pid) 3 5).message⟩] := by
  simp only [attemptTarget]
  split <;> rfl

theorem attemptTarget_successes (cfg : CampaignConfig) (pid : String) (t : Target)
    (st : CampaignState) :
    st.successes ≤ (attemptTarget cfg pid t st).successes ∧
      (attemptTarget cfg pid t st).successes ≤ st.successes + 1 := by
  simp only [attemptTarget]
  split <;> simp

theorem attemptTarget_delays_len (cfg : CampaignConfig) (pid : String) (t : Target)
    (st : CampaignState) (h : st.interTargetDelays.length = st.successes) :
    (attemptTarget cfg pid t st).interTargetDelays.length =
      (attemptTarget cfg pid t st).successes := by
  simp only [attemptTarget]
  split <;> simp [h]

theorem attemptTarget_delays_mem (cfg : CampaignConfig) (pid : String) (t : Target)
    (st : CampaignState) (d : ℚ)
    (hd : d ∈ (attemptTarget cfg pid t st).interTargetDelays) :
    d ∈ st.interTargetDelays ∨ d = cfg.interDelay st.successes := by
  simp only [attemptTarget] at hd
  split at hd
  · simp at hd
    rcases hd with h | h
    · exact Or.inl h
    · exact Or.inr h
  · exact Or.inl hd

theorem companyLoop_successes_le (cfg : CampaignConfig) (batch : List Target) :
    ∀ (a : Nat) (st : CampaignState), st.successes ≤ cfg.target_connections →
      (companyLoop cfg batch a st).successes ≤ cfg.target_connections := by
  induction batch with
  | nil => intro a st h; exact h
  | cons t rest ih =>
    intro a st h
    simp only [companyLoop]
    split_ifs with h1 h2 h3 h4
    · exact h
    · exact h
    · exact ih _ _ h
    · exact ih _ _ h
    · apply ih
      have hb := attemptTarget_successes cfg (resolvePid t) t st
      omega

theorem companyLoop_stop (cfg : CampaignConfig) (batch : List Target) (a : Nat)
    (st : CampaignState) (h : cfg.target_connections ≤ st.successes) :
    companyLoop cfg batch a st = st := by
  cases batch with
  | nil => rfl
  | cons t rest => simp only [companyLoop]; simp [h]

theorem companyLoop_cap_stop (cfg : CampaignConfig) (batch : List Target) (a : Nat)
    (st : CampaignState) (h : cfg.max_attempts_per_company ≤ a) :
    companyLoop cfg batch a st = st := by
  cases batch with
  | nil => rfl
  | cons t rest =>
    simp only [companyLoop]
    by_cases h1 : cfg.target_connections ≤ st.successes
    · simp [h1]
    · simp [h1, h]

theorem runCampaign_successes_le (cfg : CampaignConfig) (batches : List (List Target)) :
    ∀ st : CampaignState, st.successes ≤ cfg.target_connections →
      (runCampaign cfg batches st).successes ≤ cfg.target_connections := by
  induction batches with
  | nil => intro st h; exact h
  | cons batch rest ih =>
    intro st h
    simp only [runCampaign]
    split_ifs with h1
    · exact h
    · exact ih _ (companyLoop_successes_le cfg batch 0 st h)

theorem runCampaign_stop (cfg : CampaignConfig) (batches : List (List Target))
    (st : CampaignState) (h : cfg.target_connections ≤ st.successes) :
    runCampaign cfg batches st = st := by
  cases batches with
  | nil => rfl
  | cons batch rest => simp only [runCampaign]; simp [h]

theorem companyLoop_records_le (cfg : CampaignConfig) (batch : List Target) :
    ∀ (a : Nat) (st : CampaignState),
      (companyLoop cfg batch a st).records.length ≤
        st.records.length + (cfg.max_attempts_per_company - a) := by
  induction batch with
  | nil => intro a st; simp [companyLoop]
  | cons t rest ih =>
    intro a st
    simp only [companyLoop]
    split_ifs with h1 h2 h3 h4
    · simp
    · simp
    · exact le_trans (ih _ _) (by omega)
    · exact le_trans (ih _ _) (by omega)
    · have hi := ih (a + 1) (attemptTarget cfg (resolvePid t) t st)
      have hr := attemptTarget_records cfg (resolvePid t) t st
      have hlen : (attemptTarget cfg (resolvePid t) t st).records.length =
          st.records.length + 1 := by rw [hr]; simp
      omega

/-! ## C4: the success counter never exceeds the target and both loops
stop at equality -/

/-- C4.  In every campaign run the success counter never exceeds
target_connections, and both the per-company sub-loop and the company
loop issue nothing further (return the state unchanged) as soon as the
counter has reached the target. -/
theorem claim_C4_success_bound (cfg : CampaignConfig) (batches : List (List Target))
    (batch : List Target) (a : Nat) (st : CampaignState)
    (h : st.successes ≤ cfg.target_connections) :
    (runCampaign cfg batches st).successes ≤ cfg.target_connections ∧
      (st.successes = cfg.target_connections → runCampaign cfg batches st = st) ∧
      (st.successes = cfg.target_connections → companyLoop cfg batch a st = st) := by
  refine ⟨runCampaign_successes_le cfg batches st h, ?_, ?_⟩
  · intro he; exact runCampaign_stop cfg batches st (le_of_eq he.symm)
  · intro he; exact companyLoop_stop cfg batch a st (le_of_eq he.symm)

/-- C4 witness: the run of the concrete two-company campaign stays
within the target of 15, and a state already at the target is left
untouched by both loops. -/
theorem claim_C4_success_bound_witness :
    (runCampaign cfgTwoCompanies [[targetX], [targetX]] initialCampaignState).successes ≤
        cfgTwoCompanies.target_connections ∧
      (initialCampaignState.successes = cfgTwoCompanies.target_connections →
        runCampaign cfgTwoCompanies [[targetX], [targetX]] initialCampaignState =
          initialCampaignState) ∧
      (initialCampaignState.successes = cfgTwoCompanies.target_connections →
        companyLoop cfgTwoCompanies [targetX] 0 initialCampaignState =
          initialCampaignState) :=
  claim_C4_success_bound cfgTwoCompanies [[targetX], [targetX]] [targetX] 0
    initialCampaignState (by decide)

/-! ## C9: per-affiliation attempt cap -/

/-- C9.  For every company, the inner loop starting with a fresh
attempts_for_company counter issues at most max_attempts_per_company
executor calls: the attempt list grows by at most the cap, and a
sub-loop whose counter has already reached the cap issues nothing. -/
theorem claim_C9_company_cap (cfg : CampaignConfig) (batch : List Target)
    (a : Nat) (st : CampaignState) (h : cfg.max_attempts_per_company ≤ a) :
    (companyLoop cfg batch 0 st).records.length ≤
        st.records.length + cfg.max_attempts_per_company ∧
      companyLoop cfg batch a st = st := by
  constructor
  · have := companyLoop_records_le cfg batch 0 st
    omega
  · exact companyLoop_cap_stop cfg batch a st h

/-- C9 witness: with the source's cap of 2, a batch of three fresh
targets produces at most two attempt rows, and a sub-loop entered with
the counter at the cap does nothing. -/
theorem claim_C9_company_cap_witness :
    (companyLoop cfgTwoCompanies [targetX, targetX, targetX] 0 initialCampaignState).records.length ≤
        initialCampaignState.records.length + cfgTwoCompanies.max_attempts_per_company ∧
      companyLoop cfgTwoCompanies [targetX, targetX, targetX] 2 initialCampaignState =
        initialCampaignState :=
  claim_C9_company_cap cfgTwoCompanies [targetX, targetX, targetX] 2 initialCampaignState
    (by decide)

/-! ## C2: dedup-ledger targets receive no connect action, and the
ledger is merged at run end -/

theorem companyLoop_records_not_in_ledger (cfg : CampaignConfig) (batch : List Target) :
    ∀ (a : Nat) (st : CampaignState),
      (∀ r ∈ st.records, r.profile_id ∉ cfg.previous_profile_ids) →
      ∀ r ∈ (companyLoop cfg batch a st).records, r.profile_id ∉ cfg.previous_profile_ids := by
  induction batch with
  | nil => intro a st h; exact h
  | cons t rest ih =>
    intro a st h
    simp only [companyLoop]
    split_ifs with h1 h2 h3 h4
    · exact h
    · exact h
    · exact ih _ _ h
    · exact ih _ _ h
    · apply ih
      intro r hr
      rw [attemptTarget_records] at hr
      rcases List.mem_append.mp hr with hr | hr
      · exact h r hr
      · have : r.profile_id = resolvePid t := by
          simp at hr; rw [hr]
        rw [this]
        simpa using h4

theorem runCampaign_records_not_in_ledger (cfg : CampaignConfig)
    (batches : List (List Target)) :
    ∀ st : CampaignState,
      (∀ r ∈ st.records, r.profile_id ∉ cfg.previous_profile_ids) →
      ∀ r ∈ (runCampaign cfg batches st).records, r.profile_id ∉ cfg.previous_profile_ids := by
  induction batches with
  | nil => intro st h; exact h
  | cons batch rest ih =>
    intro st h
    simp only [runCampaign]
    split_ifs with h1
    · exact h
    · exact ih _ (companyLoop_records_not_in_ledger cfg batch 0 st h)

/-- C2.  Every attempt row a run produces is for a profile id absent
from the ledger the run was started with — a target already in the
Dedup Ledger gets no executor call and no attempt row — and the end-of-
run merge keeps every prior row and every new row, so a second run
whose ledger is the merged file's id column re-attempts none of this
run's targets. -/
theorem claim_C2_dedup_ledger (cfg : CampaignConfig) (batches : List (List Target))
    (priorRecs : List AttemptRecord) (cfg2 : CampaignConfig)
    (batches2 : List (List Target))
    (hledger2 : cfg2.previous_profile_ids =
      (mergeAttempts priorRecs (runCampaign cfg batches initialCampaignState).records).map
        (fun r => r.profile_id)) :
    (∀ r ∈ (runCampaign cfg batches initialCampaignState).records,
        r.profile_id ∉ cfg.previous_profile_ids) ∧
      (∀ r ∈ priorRecs,
        r ∈ mergeAttempts priorRecs (runCampaign cfg batches initialCampaignState).records) ∧
      (∀ r ∈ (runCampaign cfg batches initialCampaignState).records,
        r ∈ mergeAttempts priorRecs (runCampaign cfg batches initialCampaignState).records) ∧
      (∀ r2 ∈ (runCampaign cfg2 batches2 initialCampaignState).records,
        r2.profile_id ∉
          ((runCampaign cfg batches initialCampaignState).records.map fun r => r.profile_id)) := by
  refine ⟨?_, ?_, ?_, ?_⟩
  · exact runCampaign_records_not_in_ledger cfg batches initialCampaignState (by simp [initialCampaignState])
  · intro r hr
    unfold mergeAttempts
    split
    · exact hr
    · exact List.mem_append.mpr (Or.inl hr)
  · intro r hr
    unfold mergeAttempts
    split
    · rename_i hemp
      rw [List.isEmpty_iff] at hemp
      rw [hemp] at hr
      simp at hr
    · exact List.mem_append.mpr (Or.inr hr)
  · intro r2 hr2 hmem
    have hnot := runCampaign_records_not_in_ledger cfg2 batches2 initialCampaignState
      (by simp [initialCampaignState]) r2 hr2
    apply hnot
    rw [hledger2]
    rcases List.mem_map.mp hmem with ⟨r, hr, hpid⟩
    apply List.mem_map.mpr
    refine ⟨r, ?_, hpid⟩
    unfold mergeAttempts
    split
    · rename_i hemp
      rw [List.isEmpty_iff] at hemp
      rw [hemp] at hr
      simp at hr
    · exact List.mem_append.mpr (Or.inr hr)

/-- C2 witness: the concrete two-company run starts with an empty
ledger and its second run, over the merged ledger, re-attempts nothing. -/
theorem claim_C2_dedup_ledger_witness :
    (∀ r ∈ (runCampaign cfgTwoCompanies [[targetX], [targetX]] initialCampaignState).records,
        r.profile_id ∉ cfgTwoCompanies.previous_profile_ids) ∧
      (∀ r ∈ ([] : List AttemptRecord),
        r ∈ mergeAttempts []
          (runCampaign cfgTwoCompanies [[targetX], [targetX]] initialCampaignState).records) ∧
      (∀ r ∈ (runCampaign cfgTwoCompanies [[targetX], [targetX]] initialCampaignState).records,
        r ∈ mergeAttempts []
          (runCampaign cfgTwoCompanies [[targetX], [targetX]] initialCampaignState).records) ∧
      (∀ r2 ∈ (runCampaign cfgSecondRun [[targetX], [targetX]] initialCampaignState).records,
        r2.profile_id ∉
          ((runCampaign cfgTwoCompanies [[targetX], [targetX]] initialCampaignState).records.map
            fun r => r.profile_id)) :=
  claim_C2_dedup_ledger cfgTwoCompanies [[targetX], [targetX]] [] cfgSecondRun
    [[targetX], [targetX]] (by rfl)

/-! ## C8: inter-target delay only after success, in the range 45-90 -/

theorem companyLoop_delays_len (cfg : CampaignConfig) (batch : List Target) :
    ∀ (a : Nat) (st : CampaignState),
      st.interTargetDelays.length = st.successes →
      (companyLoop cfg batch a st).interTargetDelays.length =
        (companyLoop cfg batch a st).successes := by
  induction batch with
  | nil => intro a st h; exact h
  | cons t rest ih =>
    intro a st h
    simp only [companyLoop]
    split_ifs with h1 h2 h3 h4
    · exact h
    · exact h
    · exact ih _ _ h
    · exact ih _ _ h
    · exact ih _ _ (attemptTarget_delays_len cfg (resolvePid t) t st h)

theorem companyLoop_delays_mem (cfg : CampaignConfig) (batch : List Target)
    (P : ℚ → Prop) (hP : ∀ n, P (cfg.interDelay n)) :
    ∀ (a : Nat) (st : CampaignState),
      (∀ d ∈ st.interTargetDelays, P d) →
      ∀ d ∈ (companyLoop cfg batch a st).interTargetDelays, P d := by
  induction batch with
  | nil => intro a st h; exact h
  | cons t rest ih =>
    intro a st h
    simp only [companyLoop]
    split_ifs with h1 h2 h3 h4
    · exact h
    · exact h
    · exact ih _ _ h
    · exact ih _ _ h
    · apply ih
      intro d hd
      rcases attemptTarget_delays_mem cfg (resolvePid t) t st d hd with hd | hd
      · exact h d hd
      · rw [hd]; exact hP _

theorem runCampaign_delays_len (cfg : CampaignConfig) (batches : List (List Target)) :
    ∀ st : CampaignState,
      st.interTargetDelays.length = st.successes →
      (runCampaign cfg batches st).interTargetDelays.length =
        (runCampaign cfg batches st).successes := by
  induction batches with
  | nil => intro st h; exact h
  | cons batch rest ih =>
    intro st h
    simp only [runCampaign]
    split_ifs with h1
    · exact h
    · exact ih _ (companyLoop_delays_len cfg batch 0 st h)

theorem runCampaign_delays_mem (cfg : CampaignConfig) (batches : List (List Target))
    (P : ℚ → Prop) (hP : ∀ n, P (cfg.interDelay n)) :
    ∀ st : CampaignState,
      (∀ d ∈ st.interTargetDelays, P d) →
      ∀ d ∈ (runCampaign cfg batches st).interTargetDelays, P d := by
  induction batches with
  | nil => intro st h; exact h
  | cons batch rest ih =>
    intro st h
    simp only [runCampaign]
    split_ifs with h1
    · exact h
    · exact ih _ (companyLoop_delays_mem cfg batch P hP 0 st h)

/-- C8.  A campaign run sleeps exactly one inter-target delay per
successful connect action (none after a skip or a failure), every such
delay lies in the uniform(45, 90) range of the draw, and in the message
pipeline the delay slept before the next connection — which with
max_results=1 always uses connection_index 0 — also lies in [45, 90]. -/
theorem claim_C8_inter_target_delay (cfg : CampaignConfig) (batches : List (List Target))
    (hu : ∀ n, 45 ≤ cfg.interDelay n ∧ cfg.interDelay n ≤ 90)
    (idx : Nat) (hidx : idx < 1) (j : ℚ) (hj0 : 0 ≤ j) (hj1 : j ≤ 45) :
    (runCampaign cfg batches initialCampaignState).interTargetDelays.length =
        (runCampaign cfg batches initialCampaignState).successes ∧
      (∀ d ∈ (runCampaign cfg batches initialCampaignState).interTargetDelays,
        45 ≤ d ∧ d ≤ 90) ∧
      (45 ≤ pipe2_next_connection_delay idx j ∧ pipe2_next_connection_delay idx j ≤ 90) := by
  refine ⟨?_, ?_, ?_⟩
  · exact runCampaign_delays_len cfg batches initialCampaignState (by simp [initialCampaignState])
  · exact runCampaign_delays_mem cfg batches (fun d => 45 ≤ d ∧ d ≤ 90) hu
      initialCampaignState (by simp [initialCampaignState])
  · interval_cases idx
    unfold pipe2_next_connection_delay
    constructor
    · apply le_min
      · norm_num
      · rw [pow_zero]; linarith
    · calc min 120 (45 * 2 ^ (0 : ℕ) + j) ≤ 45 * 2 ^ (0 : ℕ) + j := min_le_right _ _
        _ ≤ 90 := by rw [pow_zero]; linarith

/-- C8 witness: the concrete two-company run with a constant draw of 50
satisfies all three parts, at connection index 0 with jitter 10. -/
theorem claim_C8_inter_target_delay_witness :
    (runCampaign cfgTwoCompanies [[targetX], [targetX]] initialCampaignState).interTargetDelays.length =
        (runCampaign cfgTwoCompanies [[targetX], [targetX]] initialCampaignState).successes ∧
      (∀ d ∈ (runCampaign cfgTwoCompanies [[targetX], [targetX]]
          initialCampaignState).interTargetDelays, 45 ≤ d ∧ d ≤ 90) ∧
      (45 ≤ pipe2_next_connection_delay 0 10 ∧ pipe2_next_connection_delay 0 10 ≤ 90) :=
  claim_C8_inter_target_delay cfgTwoCompanies [[targetX], [targetX]]
    (by intro n; constructor <;> norm_num [cfgTwoCompanies]) 0 (by norm_num) 10
    (by norm_num) (by norm_num)

/-! ## C10: no within-run deduplication -/

/-- C10.  The in-memory ledger is not updated during a run: a fresh id
appearing in the batches of two different companies of the same run
receives two connect attempts in that run, while after the end-of-run
merge a second run attempts it zero times — deduplication acts across
runs only. -/
theorem claim_C10_within_run_duplicates :
    ((runCampaign cfgTwoCompanies [[targetX], [targetX]] initialCampaignState).records.map
        fun r => r.profile_id) = ["x123", "x123"] ∧
      (runCampaign cfgSecondRun [[targetX], [targetX]] initialCampaignState).records = [] := by
  constructor
  · decide
  · decide

/-! ## C5: exponential backoff with jitter in the message retry loop -/

theorem pipe2_send_loop_delay_get (succeeds : Nat → Bool) (jit : Nat → ℚ) :
    ∀ (fuel r i : Nat), i < (pipe2_send_loop succeeds jit r fuel).2.length →
      (pipe2_send_loop succeeds jit r fuel).2.getD i 0 =
        pipe2_backoff (r + i + 2) (jit (r + i)) := by
  intro fuel
  induction fuel with
  | zero => intro r i h; simp [pipe2_send_loop] at h
  | succ f ih =>
    intro r i h
    simp only [pipe2_send_loop] at h ⊢
    split_ifs at h ⊢ with hs
    · simp at h
    · cases i with
      | zero => simp [pipe2_backoff]
      | succ i2 =>
        simp only [List.getD_cons_succ]
        simp only [List.length_cons, Nat.add_lt_add_iff_right] at h
        have harg : r + 1 + i2 = r + (i2 + 1) := by omega
        have := ih (r + 1) i2 h
        rw [harg] at this
        exact this

theorem pipe2_send_loop_delay_le (succeeds : Nat → Bool) (jit : Nat → ℚ) :
    ∀ (fuel r : Nat), ∀ d ∈ (pipe2_send_loop succeeds jit r fuel).2, d ≤ 150 := by
  intro fuel
  induction fuel with
  | zero => intro r d hd; simp [pipe2_send_loop] at hd
  | succ f ih =>
    intro r d hd
    simp only [pipe2_send_loop] at hd
    split_ifs at hd with hs
    · simp at hd
    · simp only [List.mem_cons] at hd
      rcases hd with hd | hd
      · rw [hd]; exact min_le_left _ _
      · exact ih (r + 1) d hd

theorem one_le_two_pow_rat (n : Nat) : (1 : ℚ) ≤ 2 ^ n := by
  exact_mod_cast Nat.one_le_two_pow (n := n)

/-- C5.  Every backoff delay the message retry loop produces equals
min(150, 30 * 2 ^ n + jitter) where n is the code's attempt variable —
the i-th produced delay precedes attempt number i + 2, the first
having no delay — and consequently, with jitter drawn from [0, 30):
every delay is capped at 150, a delay below the cap is at least
30 * 2 ^ n, and consecutive delays never decrease. -/
theorem claim_C5_backoff (succeeds : Nat → Bool) (jit : Nat → ℚ) (fuel i : Nat)
    (hj : ∀ k, 0 ≤ jit k ∧ jit k < 30) :
    (i < (pipe2_send_loop succeeds jit 0 fuel).2.length →
      (pipe2_send_loop succeeds jit 0 fuel).2.getD i 0 =
        min 150 (30 * 2 ^ (i + 2) + jit i)) ∧
      (∀ d ∈ (pipe2_send_loop succeeds jit 0 fuel).2, d ≤ 150) ∧
      (i < (pipe2_send_loop succeeds jit 0 fuel).2.length →
        (pipe2_send_loop succeeds jit 0 fuel).2.getD i 0 < 150 →
        30 * 2 ^ (i + 2) ≤ (pipe2_send_loop succeeds jit 0 fuel).2.getD i 0) ∧
      (i + 1 < (pipe2_send_loop succeeds jit 0 fuel).2.length →
        (pipe2_send_loop succeeds jit 0 fuel).2.getD i 0 ≤
          (pipe2_send_loop succeeds jit 0 fuel).2.getD (i + 1) 0) := by
  have hget : ∀ k, k < (pipe2_send_loop succeeds jit 0 fuel).2.length →
      (pipe2_send_loop succeeds jit 0 fuel).2.getD k 0 =
        min 150 (30 * 2 ^ (k + 2) + jit k) := by
    intro k hk
    have := pipe2_send_loop_delay_get succeeds jit fuel 0 k hk
    simpa [pipe2_backoff] using this
  refine ⟨hget i, pipe2_send_loop_delay_le succeeds jit fuel 0, ?_, ?_⟩
  · intro hi hlt
    rw [hget i hi] at hlt ⊢
    rcases le_total 150 (30 * 2 ^ (i + 2) + jit i) with hc | hc
    · rw [min_eq_left hc] at hlt; exact absurd hlt (by norm_num)
    · rw [min_eq_right hc]
      have := (hj i).1
      linarith
  · intro hi1
    have hi : i < (pipe2_send_loop succeeds jit 0 fuel).2.length := by omega
    rw [hget i hi, hget (i + 1) hi1]
    apply min_le_min le_rfl
    have h1 : jit i < 30 := (hj i).2
    have h2 : (0 : ℚ) ≤ jit (i + 1) := (hj (i + 1)).1
    have h3 : (1 : ℚ) ≤ 2 ^ (i + 2) := one_le_two_pow_rat (i + 2)
    have h4 : (2 : ℚ) ^ (i + 1 + 2) = 2 ^ (i + 2) * 2 := by
      rw [show i + 1 + 2 = (i + 2) + 1 by omega, pow_succ]
    rw [h4]
    nlinarith

/-- C5 witness: an all-failing send with constant jitter 1 produces
delays 121, 150, 150 over three loop iterations, matching all four
parts at index 0. -/
theorem claim_C5_backoff_witness :
    (0 < (pipe2_send_loop (fun _ => false) (fun _ => 1) 0 3).2.length →
      (pipe2_send_loop (fun _ => false) (fun _ => 1) 0 3).2.getD 0 0 =
        min 150 (30 * 2 ^ (0 + 2) + 1)) ∧
      (∀ d ∈ (pipe2_send_loop (fun _ => false) (fun _ => 1) 0 3).2, d ≤ 150) ∧
      (0 < (pipe2_send_loop (fun _ => false) (fun _ => 1) 0 3).2.length →
        (pipe2_send_loop (fun _ => false) (fun _ => 1) 0 3).2.getD 0 0 < 150 →
        30 * 2 ^ (0 + 2) ≤ (pipe2_send_loop (fun _ => false) (fun _ => 1) 0 3).2.getD 0 0) ∧
      (0 + 1 < (pipe2_send_loop (fun _ => false) (fun _ => 1) 0 3).2.length →
        (pipe2_send_loop (fun _ => false) (fun _ => 1) 0 3).2.getD 0 0 ≤
          (pipe2_send_loop (fun _ => false) (fun _ => 1) 0 3).2.getD (0 + 1) 0) :=
  claim_C5_backoff (fun _ => false) (fun _ => 1) 3 0
    (by intro k; constructor <;> norm_num)

/-! ## C1: bounded retries — refuted for the message pipeline -/

theorem send_connection_request_aux_attempts_le (env : Nat → AttemptEnv) (maxR rd : Nat) :
    ∀ (remaining attempt : Nat),
      (send_connection_request_aux env maxR rd attempt remaining).attemptsUsed ≤ remaining := by
  intro remaining
  induction remaining with
  | zero => intro attempt; simp [send_connection_request_aux]
  | succ r ih =>
    intro attempt
    have hrec := ih (attempt + 1)
    simp only [send_connection_request_aux]
    cases hl : (env attempt).lookup with
    | raised msg => dsimp only; split_ifs <;> dsimp only <;> omega
    | notFound => dsimp only; omega
    | found =>
      cases hc : (env attempt).conn with
      | sentOk => dsimp only; omega
      | failFlag => dsimp only; omega
      | raised msg => dsimp only; split_ifs <;> dsimp only <;> omega

theorem pipe2_send_loop_some_succeeds (succeeds : Nat → Bool) (jit : Nat → ℚ) :
    ∀ (fuel r n : Nat), (pipe2_send_loop succeeds jit r fuel).1 = some n →
      ∃ k, n = k + 1 ∧ succeeds k = true := by
  intro fuel
  induction fuel with
  | zero => intro r n h; simp [pipe2_send_loop] at h
  | succ f ih =>
    intro r n h
    simp only [pipe2_send_loop] at h
    split_ifs at h with hs
    · simp at h
      exact ⟨r, h.symm, hs⟩
    · exact ih (r + 1) n h

theorem pipe2_send_loop_allfail (jit : Nat → ℚ) :
    ∀ (fuel r : Nat),
      (pipe2_send_loop (fun _ => false) jit r fuel).1 = none ∧
        (pipe2_send_loop (fun _ => false) jit r fuel).2.length = fuel := by
  intro fuel
  induction fuel with
  | zero => intro r; simp [pipe2_send_loop]
  | succ f ih =>
    intro r
    simp only [pipe2_send_loop]
    simpa using ih (r + 1)

/-- C1 counterexample.  The message-send retry loop of pipe_2 is a
while True with no attempt bound: against an oracle on which every
attempt fails, unrolling ten loop iterations performs ten attempts
(ten backoff sleeps) and still reaches no terminal outcome, so the
executor does not stop after any configured maxAttempts — the claimed
bound fails for the message-send action kind. -/
theorem claim_C1_counterexample :
    (pipe2_send_loop (fun _ => false) (fun _ => 0) 0 10).1 = none ∧
      (pipe2_send_loop (fun _ => false) (fun _ => 0) 0 10).2.length = 10 := by
  constructor
  · decide
  · decide

/-- C1 amended.  Connection requests (pipe_1) perform at most
max_retries attempts and always return a terminal outcome; the message
send (pipe_2) retries without bound — its loop returns only when some
attempt succeeds, and when every attempt fails it produces no terminal
outcome however many iterations are unrolled, performing one attempt
per iteration. -/
theorem claim_C1_amended (env : Nat → AttemptEnv) (maxR rd : Nat)
    (succeeds : Nat → Bool) (jit jit2 : Nat → ℚ) (fuel fuel2 n : Nat)
    (hsome : (pipe2_send_loop succeeds jit 0 fuel).1 = some n) :
    (send_connection_request env maxR rd).attemptsUsed ≤ maxR ∧
      (∃ k, n = k + 1 ∧ succeeds k = true) ∧
      ((pipe2_send_loop (fun _ => false) jit2 0 fuel2).1 = none ∧
        (pipe2_send_loop (fun _ => false) jit2 0 fuel2).2.length = fuel2) :=
  ⟨send_connection_request_aux_attempts_le env maxR rd maxR 0,
   pipe2_send_loop_some_succeeds succeeds jit fuel 0 n hsome,
   pipe2_send_loop_allfail jit2 fuel2 0⟩

/-- C1 witness: the bounded connection-request executor against an
always-raising oracle, and a message send that succeeds on its second
attempt. -/
theorem claim_C1_amended_witness :
    (send_connection_request envAllRaise 3 5).attemptsUsed ≤ 3 ∧
      (∃ k, 2 = k + 1 ∧ (fun m => m == 1) k = true) ∧
      ((pipe2_send_loop (fun _ => false) (fun _ => 0) 0 4).1 = none ∧
        (pipe2_send_loop (fun _ => false) (fun _ => 0) 0 4).2.length = 4) :=
  claim_C1_amended envAllRaise 3 5 (fun m => m == 1) (fun _ => 0) (fun _ => 0) 4 4 2
    (by decide)

/-! ## C3: one AttemptRecord per target, and the retry-versus-return
behaviour of the executor -/

theorem send_connection_request_aux_after_first (env : Nat → AttemptEnv) (maxR rd : Nat)
    (attempt r : Nat) (h : 0 < attempt) :
    1 ≤ (send_connection_request_aux env maxR rd attempt (r + 1)).attemptsUsed ∧
      (send_connection_request_aux env maxR rd attempt (r + 1)).retrySleeps.head? =
        some rd := by
  simp only [send_connection_request_aux, if_pos h]
  cases hl : (env attempt).lookup with
  | raised msg =>
    dsimp only
    split_ifs <;> exact ⟨by dsimp only; omega, by simp⟩
  | notFound => exact ⟨by dsimp only; omega, by simp⟩
  | found =>
    cases hc : (env attempt).conn with
    | sentOk => exact ⟨by dsimp only; omega, by simp⟩
    | failFlag => exact ⟨by dsimp only; omega, by simp⟩
    | raised msg =>
      dsimp only
      split_ifs <;> exact ⟨by dsimp only; omega, by simp⟩

theorem exception_failure_retries (env : Nat → AttemptEnv) (rd : Nat) (msg : String)
    (hlk : (env 0).lookup = .found) (hcn : (env 0).conn = .raised msg) :
    2 ≤ (send_connection_request env 3 rd).attemptsUsed ∧
      (send_connection_request env 3 rd).retrySleeps.head? = some rd := by
  unfold send_connection_request
  rw [show (3 : Nat) = 2 + 1 from rfl, send_connection_request_aux, hlk]
  dsimp only
  rw [hcn]
  dsimp only
  rw [if_neg (by omega : ¬(0 : Nat) = 2 + 1 - 1), if_neg (by omega : ¬(0 : Nat) < 0)]
  dsimp only
  have h2 := send_connection_request_aux_after_first env (2 + 1) rd (0 + 1) 1 (by omega)
  norm_num at h2 ⊢
  exact ⟨by omega, h2.2⟩

/-- C3 counterexample.  A mutating call whose response is classified as
failure on the very first attempt (the API returned a truthy value)
makes the executor return failure immediately: with maxAttempts 3 only
one attempt is performed and no retry sleep happens, refuting that a
failure before the last attempt always sleeps and continues and that
only a last-attempt failure produces a failure return. -/
theorem claim_C3_counterexample :
    send_connection_request envAllFlag 3 5 =
      ⟨false, "Failed to send connection request", 1, []⟩ := by
  decide

/-- C3 amended.  Exactly one AttemptRecord is appended per non-skipped
target, carrying the executor's terminal outcome; an attempt failing by
exception before the last attempt sleeps the retry delay and continues
to another attempt, and the two spec scenarios hold for exception
failures: raising twice then succeeding with maxAttempts 3 gives one
record-outcome success over 3 attempts with two sleeps, raising on all
3 attempts gives failure carrying the last reason; however a not-found
lookup or a failure-classified response returns failure immediately
regardless of remaining attempts. -/
theorem claim_C3_amended (cfg : CampaignConfig) (t : Target) (st : CampaignState)
    (h1 : st.successes < cfg.target_connections) (h2 : 0 < cfg.max_attempts_per_company)
    (h3 : ¬(resolvePid t = "" ∨ resolvePid t = "Unknown"))
    (h4 : resolvePid t ∉ cfg.previous_profile_ids)
    (env : Nat → AttemptEnv) (rd : Nat) (msg : String)
    (hlk : (env 0).lookup = .found) (hcn : (env 0).conn = .raised msg) :
    (companyLoop cfg [t] 0 st).records =
        st.records ++
          [⟨resolvePid t, t.name.getD "Unknown", t.current_company.getD "Unknown Company",
            (send_connection_request (cfg.envOf (resolvePid t)) 3 5).success,
            (send_connection_request (cfg.envOf (resolvePid t)) 3 5).message⟩] ∧
      send_connection_request envFailTwiceThenOk 3 5 =
        ⟨true, "Connection request sent successfully", 3, [5, 5]⟩ ∧
      send_connection_request envAllRaise 3 5 = ⟨false, "e2", 3, [5, 5]⟩ ∧
      2 ≤ (send_connection_request env 3 rd).attemptsUsed ∧
      (send_connection_request env 3 rd).retrySleeps.head? = some rd := by
  have hmain := exception_failure_retries env rd msg hlk hcn
  refine ⟨?_, by decide, by decide, hmain.1, hmain.2⟩
  have hskip : ¬((resolvePid t = "" || resolvePid t = "Unknown") = true) := by
    simp only [Bool.or_eq_true, decide_eq_true_eq]
    exact h3
  have hcont : ¬(cfg.previous_profile_ids.contains (resolvePid t) = true) := by
    simpa using h4
  simp only [companyLoop]
  rw [if_neg (by omega), if_neg (by omega), if_neg hskip, if_neg hcont]
  exact attemptTarget_records cfg (resolvePid t) t st

/-- C3 witness: the amended statement at the concrete two-company
configuration with an always-raising oracle. -/
theorem claim_C3_amended_witness :
    (companyLoop cfgTwoCompanies [targetX] 0 initialCampaignState).records =
        initialCampaignState.records ++
          [⟨resolvePid targetX, targetX.name.getD "Unknown",
            targetX.current_company.getD "Unknown Company",
            (send_connection_request (cfgTwoCompanies.envOf (resolvePid targetX)) 3 5).success,
            (send_connection_request (cfgTwoCompanies.envOf (resolvePid targetX)) 3 5).message⟩] ∧
      send_connection_request envFailTwiceThenOk 3 5 =
        ⟨true, "Connection request sent successfully", 3, [5, 5]⟩ ∧
      send_connection_request envAllRaise 3 5 = ⟨false, "e2", 3, [5, 5]⟩ ∧
      2 ≤ (send_connection_request envAllRaise 3 7).attemptsUsed ∧
      (send_connection_request envAllRaise 3 7).retrySleeps.head? = some 7 :=
  claim_C3_amended cfgTwoCompanies targetX initialCampaignState (by decide) (by decide)
    (by decide) (by decide) envAllRaise 7 "e0" (by decide) (by decide)

/-! ## C7: read conversations are skipped, unread ones with contact
details get exactly one acknowledgement -/

/-- C7.  A conversation with unread_count 0 yields no ContactFact rows
and no acknowledgement send, while an unread conversation in which at
least one message carries a phone number or email gets exactly one
acknowledgement with the canned text; for every conversation one
participant record per participant is extracted. -/
theorem claim_C7_triage (conv : Conversation) :
    (conv.unread_count = 0 →
      (process_conversation conv).facts = [] ∧ (process_conversation conv).acks = []) ∧
      (0 < conv.unread_count →
        (∃ m ∈ extract_message_data conv.events, message_has_contact m.text = true) →
        (process_conversation conv).acks = [response_message]) ∧
      (process_conversation conv).participants.length = conv.participants.length := by
  refine ⟨?_, ?_, ?_⟩
  · intro h
    constructor <;> simp [process_conversation, h]
  · intro h hex
    rcases hex with ⟨m0, hm0, hc0⟩
    have hne : (extract_message_data conv.events).filterMap
        (fun m => if message_has_contact m.text then
          some (⟨conv.conversation_id, m.message_id, m.created_at,
            (extract_contact_details m.text).1, (extract_contact_details m.text).2⟩ :
              ContactFact)
        else none) ≠ [] := by
      intro hnil
      rw [List.filterMap_eq_nil_iff] at hnil
      have hx := hnil m0 hm0
      rw [if_pos hc0] at hx
      simp at hx
    simp [process_conversation, h, hne]
  · simp [process_conversation]

/-- C7 witness: concrete read and unread conversations. -/
theorem claim_C7_triage_witness :
    (process_conversation convUnreadExample).acks = [response_message] ∧
      (process_conversation convReadExample).facts = [] ∧
      (process_conversation convReadExample).acks = [] ∧
      (process_conversation convReadExample).participants.length =
        convReadExample.participants.length :=
  ⟨(claim_C7_triage convUnreadExample).2.1 (by decide)
      ⟨⟨"m1", "t0", "call 9876543210"⟩, by decide, by decide⟩,
   ((claim_C7_triage convReadExample).1 (by decide)).1,
   ((claim_C7_triage convReadExample).1 (by decide)).2,
   (claim_C7_triage convReadExample).2.2⟩

/-! ## C6: the Contact Extractor -/

theorem takeDigits_spec :
    ∀ (n : Nat) (l ds r : List Char), takeDigits n l = some (ds, r) →
      ds.length = n ∧ (∀ c ∈ ds, c.isDigit = true) ∧ l = ds ++ r := by
  intro n
  induction n with
  | zero =>
    intro l ds r h
    rw [takeDigits] at h
    cases h
    exact ⟨rfl, by simp, rfl⟩
  | succ n ih =>
    intro l ds r h
    cases l with
    | nil => rw [takeDigits] at h; simp at h
    | cons c l2 =>
      rw [takeDigits] at h
      split_ifs at h with hd
      · cases htd : takeDigits n l2 with
        | none => rw [htd] at h; simp at h
        | some p =>
          obtain ⟨ds2, r2⟩ := p
          rw [htd] at h
          simp only [Option.some.injEq, Prod.mk.injEq] at h
          obtain ⟨h1, h2⟩ := h
          subst h1
          subst h2
          obtain ⟨hlen, hdig, happ⟩ := ih l2 ds2 r2 htd
          refine ⟨by simp [hlen], ?_, by simp [happ]⟩
          intro x hx
          rcases List.mem_cons.mp hx with rfl | hx
          · exact hd
          · exact hdig x hx

theorem matchMobileBody_spec (l m r : List Char) (h : matchMobileBody l = some (m, r)) :
    ∃ c ds, m = c :: ds ∧ isMobileStart c = true ∧ ds.length = 9 ∧
      (∀ x ∈ ds, x.isDigit = true) ∧ l = m ++ r := by
  cases l with
  | nil => simp [matchMobileBody] at h
  | cons c rest =>
    rw [matchMobileBody] at h
    split_ifs at h with hm
    · cases htd : takeDigits 9 rest with
      | none => rw [htd] at h; simp at h
      | some p =>
        obtain ⟨ds, r2⟩ := p
        rw [htd] at h
        simp only [Option.some.injEq, Prod.mk.injEq] at h
        obtain ⟨h1, h2⟩ := h
        subst h1
        subst h2
        obtain ⟨hlen, hdig, happ⟩ := takeDigits_spec 9 rest ds r2 htd
        exact ⟨c, ds, rfl, hm, hlen, hdig, by simp [happ]⟩

theorem isMobileStart_isDigit (c : Char) (h : isMobileStart c = true) :
    c.isDigit = true := by
  simp only [isMobileStart, Bool.or_eq_true, decide_eq_true_eq] at h
  rcases h with ((rfl | rfl) | rfl) | rfl <;> decide

theorem matchMobileBody_none_short (l : List Char) (h : l.length < 10) :
    matchMobileBody l = none := by
  cases hm : matchMobileBody l with
  | none => rfl
  | some p =>
    obtain ⟨m, r⟩ := p
    obtain ⟨c, ds, rfl, _, hlen, _, happ⟩ := matchMobileBody_spec l m r hm
    rw [happ, List.length_append] at h
    simp [hlen] at h

theorem matchPhoneAt_none_short (l : List Char) (h : l.length < 10) :
    matchPhoneAt l = none := by
  rcases l with _ | ⟨c1, _ | ⟨c2, _ | ⟨c3, rest⟩⟩⟩
  · rfl
  · simp only [matchPhoneAt]
    rw [show matchMobileBody ([] : List Char) = none from rfl]
    split_ifs with h0 <;> exact matchMobileBody_none_short _ (by simp)
  · simp only [matchPhoneAt]
    rw [matchMobileBody_none_short [c2] (by simp)]
    split_ifs with h0 <;> exact matchMobileBody_none_short _ (by simp)
  · simp only [matchPhoneAt]
    have hr3 : rest.length + 3 < 10 := by simpa using h
    rw [matchMobileBody_none_short rest (by omega),
      matchMobileBody_none_short (c2 :: c3 :: rest) (by simp; omega)]
    split_ifs with hA hB <;>
      first
        | rfl
        | exact matchMobileBody_none_short _ (by simp; omega)

theorem cleanPhone_eq_self (c : Char) (rest : List Char) (h1 : ¬c = '+') (h2 : ¬c = '0') :
    cleanPhone (c :: rest) = c :: rest := by
  rcases rest with _ | ⟨d1, _ | ⟨d2, rest2⟩⟩ <;> simp [cleanPhone, h1, h2]

theorem matchPhoneAt_spec (l m r : List Char) (h : matchPhoneAt l = some (m, r)) :
    l = m ++ r ∧ (cleanPhone m).length = 10 ∧ (∀ x ∈ cleanPhone m, x.isDigit = true) := by
  rcases l with _ | ⟨c1, _ | ⟨c2, _ | ⟨c3, rest⟩⟩⟩
  · simp [matchPhoneAt] at h
  · rw [matchPhoneAt_none_short _ (by simp)] at h; simp at h
  · rw [matchPhoneAt_none_short _ (by simp)] at h; simp at h
  · simp only [matchPhoneAt] at h
    split_ifs at h with hA hB
    · obtain ⟨hc1, hc2, hc3⟩ : c1 = '+' ∧ c2 = '9' ∧ c3 = '1' := by
        simpa [Bool.and_eq_true, decide_eq_true_eq, and_assoc] using hA
      subst hc1; subst hc2; subst hc3
      cases hb : matchMobileBody rest with
      | none => rw [hb] at h; simp at h
      | some p =>
        obtain ⟨mb, rb⟩ := p
        rw [hb] at h
        simp only [Option.some.injEq, Prod.mk.injEq] at h
        obtain ⟨hm, hr⟩ := h
        subst hm
        subst hr
        obtain ⟨c, ds, hmb, hms, hlen, hdig, happ⟩ := matchMobileBody_spec rest mb rb hb
        have hclean : cleanPhone ('+' :: '9' :: '1' :: mb) = mb := by simp [cleanPhone]
        rw [hclean]
        subst hmb
        refine ⟨by simp [happ], ?_, ?_⟩
        · simp only [List.length_cons] at hlen ⊢
          omega
        · intro x hx
          rcases List.mem_cons.mp hx with rfl | hx
          · exact isMobileStart_isDigit _ hms
          · exact hdig x hx
    · subst hB
      cases hb : matchMobileBody (c2 :: c3 :: rest) with
      | none =>
        rw [hb] at h
        simp only [matchMobileBody] at h
        rw [if_neg (by decide : ¬(isMobileStart '0' = true))] at h
        simp at h
      | some p =>
        obtain ⟨mb, rb⟩ := p
        rw [hb] at h
        simp only [Option.some.injEq, Prod.mk.injEq] at h
        obtain ⟨hm, hr⟩ := h
        subst hm
        subst hr
        obtain ⟨c, ds, hmb, hms, hlen, hdig, happ⟩ := matchMobileBody_spec _ mb rb hb
        subst hmb
        rcases ds with _ | ⟨d1, ds2⟩
        · simp at hlen
        · have hclean : cleanPhone ('0' :: c :: d1 :: ds2) = c :: d1 :: ds2 := by
            simp [cleanPhone]
          rw [hclean]
          refine ⟨by simp [happ], ?_, ?_⟩
          · simp only [List.length_cons] at hlen ⊢
            omega
          · intro x hx
            rcases List.mem_cons.mp hx with rfl | hx
            · exact isMobileStart_isDigit _ hms
            · exact hdig x hx
    · obtain ⟨c, ds, hmb, hms, hlen, hdig, happ⟩ := matchMobileBody_spec _ m r h
      subst hmb
      have hplus : ¬c = '+' := by
        intro hc; rw [hc] at hms; simp [isMobileStart] at hms
      have hzero : ¬c = '0' := by
        intro hc; rw [hc] at hms; simp [isMobileStart] at hms
      rw [cleanPhone_eq_self c ds hplus hzero]
      refine ⟨happ, ?_, ?_⟩
      · simp only [List.length_cons] at hlen ⊢
        omega
      · intro x hx
        rcases List.mem_cons.mp hx with rfl | hx
        · exact isMobileStart_isDigit _ hms
        · exact hdig x hx

theorem findAllAux_phone_short :
    ∀ (fuel : Nat) (l : List Char), l.length < 10 →
      findAllAux matchPhoneAt fuel l = [] := by
  intro fuel
  induction fuel with
  | zero => intro l h; cases l <;> rfl
  | succ f ih =>
    intro l h
    cases l with
    | nil => rfl
    | cons c t =>
      rw [findAllAux, matchPhoneAt_none_short _ h]
      exact ih t (by simp only [List.length_cons] at h; omega)

theorem findAllAux_phone_shape :
    ∀ (fuel : Nat) (l : List Char), ∀ m ∈ findAllAux matchPhoneAt fuel l,
      (cleanPhone m).length = 10 ∧ (∀ x ∈ cleanPhone m, x.isDigit = true) := by
  intro fuel
  induction fuel with
  | zero => intro l m hm; simp [findAllAux] at hm
  | succ f ih =>
    intro l m hm
    cases l with
    | nil => simp [findAllAux] at hm
    | cons c t =>
      rw [findAllAux] at hm
      cases hp : matchPhoneAt (c :: t) with
      | none =>
        rw [hp] at hm
        exact ih t m hm
      | some p =>
        obtain ⟨mm, r⟩ := p
        rw [hp] at hm
        simp only [List.mem_cons] at hm
        rcases hm with rfl | hm
        · have hs := matchPhoneAt_spec _ _ _ hp
          exact ⟨hs.2.1, hs.2.2⟩
        · exact ih r m hm

theorem matchPhoneAt_ten_digit_nonmobile (c1 : Char) (t : List Char)
    (hlen : (c1 :: t).length = 10) (hdig : ∀ c ∈ c1 :: t, c.isDigit = true)
    (hm : isMobileStart c1 = false) :
    matchPhoneAt (c1 :: t) = none := by
  rcases t with _ | ⟨c2, _ | ⟨c3, rest⟩⟩
  · simp at hlen
  · simp at hlen
  · have hplus : ¬c1 = '+' := by
      intro hc
      have := hdig c1 (by simp)
      rw [hc] at this
      simp at this
    simp only [matchPhoneAt]
    have hcond : ((c1 = '+' && c2 = '9' && c3 = '1') : Bool) = false := by
      simp [hplus]
    rw [hcond]
    simp only [Bool.false_eq_true, if_false]
    rw [matchMobileBody_none_short (c2 :: c3 :: rest)
      (by simp only [List.length_cons] at hlen ⊢; omega)]
    split_ifs with h0 <;> simp [matchMobileBody, hm]

/-- C6.  The Contact Extractor returns phones 9876543210 and emails
a@b.com on the first spec example, two empty sequences on contact-free
text, matches no standalone ten-digit number whose first digit is
outside 6-9, and normalizes every returned phone number to exactly ten
digits. -/
theorem claim_C6_contact_extractor (s : List Char) (t : String)
    (h1 : s.length = 10) (h2 : ∀ c ∈ s, c.isDigit = true)
    (h3 : ∀ c, s.head? = some c → isMobileStart c = false) :
    extract_contact_details "+91 9876543210, reach me at a@b.com" =
        (["9876543210"], ["a@b.com"]) ∧
      extract_contact_details "no contact here" = ([], []) ∧
      findPhones s = [] ∧
      (∀ p ∈ (extract_contact_details t).1,
        p.length = 10 ∧ ∀ c ∈ p.data, c.isDigit = true) := by
  refine ⟨by decide, by decide, ?_, ?_⟩
  · rcases s with _ | ⟨c1, t1⟩
    · simp at h1
    · have hmob := h3 c1 (by simp)
      have hnone := matchPhoneAt_ten_digit_nonmobile c1 t1 h1 h2 hmob
      rw [findPhones, h1, findAllAux, hnone]
      exact findAllAux_phone_short 10 t1 (by simp only [List.length_cons] at h1; omega)
  · intro p hp
    simp only [extract_contact_details, List.mem_map] at hp
    obtain ⟨m, hm, rfl⟩ := hp
    have hs := findAllAux_phone_shape (t.data.length + 1) t.data m
      (by simpa [findPhones] using hm)
    exact ⟨hs.1, hs.2⟩

/-- C6 witness: the general parts instantiated at the ten-digit string
1234567890 and at the first spec example text. -/
theorem claim_C6_contact_extractor_witness :
    extract_contact_details "+91 9876543210, reach me at a@b.com" =
        (["9876543210"], ["a@b.com"]) ∧
      extract_contact_details "no contact here" = ([], []) ∧
      findPhones ['1', '2', '3', '4', '5', '6', '7', '8', '9', '0'] = [] ∧
      (∀ p ∈ (extract_contact_details "+91 9876543210, reach me at a@b.com").1,
        p.length = 10 ∧ ∀ c ∈ p.data, c.isDigit = true) :=
  claim_C6_contact_extractor ['1', '2', '3', '4', '5', '6', '7', '8', '9', '0']
    "+91 9876543210, reach me at a@b.com" (by decide)
    (by decide) (by decide)

end Pipelines

